import Mathlib

/-!
Verification of the `LoadImageFromDirBM` node
(`nodes/load_image_from_dir_bm.py`).

The node scans a semicolon-separated list of directories for image files,
sorts the collected paths under one of four sort modes, clamps the requested
index into range, decodes the selected file and returns the decoded image,
an alpha-derived mask and string metadata.

This file gives a shallow embedding of that pipeline.  Pure string helpers
(`str.split`, `str.strip`, `str.lower`, `str.endswith`, `os.path.basename`,
`os.path.join`, `os.path.splitext`, `re.split` on digit runs) are embedded
as executable Lean functions over `List Char` / `String`.  The filesystem
and the image codec are external collaborators; they are modelled by a
record of total functions (`FS`).  CPython's `sorted` is a stable sort by
key; it is embedded as `List.insertionSort` with the corresponding
key-based relation.  Floating-point pixel arithmetic is modelled over `ℚ`
(the computations involved are exact divisions by 255 and subtractions
from 1, which float32 represents only approximately; all claims checked
here are claims about the exact values).
-/

namespace BM

/-! ### Python string primitives -/

/-- ASCII decimal digit: the characters matched by the digit-run pattern in
`natural_sort_key` and accepted by `str.isdigit` (restricted to ASCII). -/
def isDigitChar (c : Char) : Bool := '0' ≤ c && c ≤ '9'

/-- `str.lower` on a single character, restricted to ASCII letters. -/
def pyLowerChar (c : Char) : Char :=
  if 'A' ≤ c && c ≤ 'Z' then Char.ofNat (c.toNat + 32) else c

/-- `str.lower`. -/
def pyLower (s : String) : String := ⟨s.data.map pyLowerChar⟩

/-- Python whitespace stripped by `str.strip()`. -/
def pyIsSpace (c : Char) : Bool :=
  c = ' ' || c = '\t' || c = '\n' || c = '\r' || c = '\x0b' || c = '\x0c'

/-- `str.strip()`: drop leading and trailing whitespace. -/
def pyStrip (s : String) : String :=
  ⟨((s.data.dropWhile pyIsSpace).reverse.dropWhile pyIsSpace).reverse⟩

/-- `str.split(sep)` for a one-character separator, on character lists:
splits at every occurrence of `sep`, keeping empty pieces. -/
def splitOnCharList (sep : Char) : List Char → List (List Char)
  | [] => [[]]
  | c :: cs =>
    match splitOnCharList sep cs with
    | [] => if c = sep then [[], []] else [[c]]
    | h :: t => if c = sep then [] :: h :: t else (c :: h) :: t

/-- `str.split(sep)` for a one-character separator. -/
def pySplit (s : String) (sep : Char) : List String :=
  (splitOnCharList sep s.data).map fun l => ⟨l⟩

/-- `str.endswith(suf)`. -/
def pyEndsWith (s suf : String) : Bool := suf.data.isSuffixOf s.data

/-- `os.path.basename` (POSIX): everything after the last `/`. -/
def basename (s : String) : String := (pySplit s '/').getLastD ""

/-- True when the string starts with `/`. -/
def startsWithSlash (f : String) : Bool :=
  match f.data with
  | '/' :: _ => true
  | _ => false

/-- True when the string ends with `/`. -/
def endsWithSlash (d : String) : Bool :=
  match d.data.getLast? with
  | some '/' => true
  | _ => false

/-- `os.path.join(d, f)` (POSIX, two arguments). -/
def pathJoin (d f : String) : String :=
  if startsWithSlash f then f
  else if d = "" || endsWithSlash d then d ++ f
  else d ++ "/" ++ f

/-- Neither a dot nor a path separator. -/
def notDotSlash (c : Char) : Bool := !(c == '.') && !(c == '/')

/-- Not a path separator. -/
def notSlash (c : Char) : Bool := !(c == '/')

/-- Not a dot. -/
def notDot (c : Char) : Bool := !(c == '.')

/-- `os.path.splitext` (POSIX): split off the extension beginning at the last
dot of the final path component, provided some non-dot character of that
component precedes the dot (so a leading-dot file such as `.png` has no
extension).  Scanning the reversed string, the characters before the first
dot-or-slash are the candidate extension body. -/
def splitext (p : String) : String × String :=
  match p.data.reverse.dropWhile notDotSlash with
  | [] => (p, "")
  | c :: preR =>
    if c == '.' then
      if (preR.takeWhile notSlash).any notDot then
        (⟨preR.reverse⟩, ⟨'.' :: (p.data.reverse.takeWhile notDotSlash).reverse⟩)
      else (p, "")
    else (p, "")

example : pySplit "A;B" ';' = ["A", "B"] := by decide
example : pySplit "" ';' = [""] := by decide
example : pySplit "a;;b" ';' = ["a", "", "b"] := by decide
example : pyStrip "  a b\t" = "a b" := by decide
example : basename "A/b/c.png" = "c.png" := by decide
example : basename "c.png" = "c.png" := by decide
example : pathJoin "A" "a.png" = "A/a.png" := by decide
example : pathJoin "A/" "a.png" = "A/a.png" := by decide
example : splitext "img.png" = ("img", ".png") := by decide
example : splitext "a.b.png" = ("a.b", ".png") := by decide
example : splitext ".png" = (".png", "") := by decide
example : splitext "noext" = ("noext", "") := by decide
example : pyEndsWith "x.PNG" ".png" = false := by decide
example : pyEndsWith (pyLower "x.PNG") ".png" = true := by decide

/-! ### The natural sort key

`natural_sort_key` computes
`[int(text) if text.isdigit() else text.lower() for text in re.split(r'(\d+)', name)]`
for `name = os.path.basename(s)`.  `re.split` with the capturing digit-run
pattern returns an odd-length list alternating (possibly empty) non-digit
pieces at even positions with maximal non-empty digit runs at odd
positions. -/

/-- The result of `re.split(r'(\d+)', ·)` on a character list: alternating
non-digit pieces (possibly empty) and maximal digit runs. -/
def reSplitDigits : List Char → List (List Char)
  | [] => [[]]
  | c :: cs =>
    match reSplitDigits cs with
    | [] => [[]]
    | t :: rest =>
      if isDigitChar c then
        match rest with
        | d :: rest2 =>
          if t = [] then [] :: (c :: d) :: rest2
          else [] :: [c] :: t :: d :: rest2
        | [] => [[], [c], t]
      else (c :: t) :: rest

example : reSplitDigits "file10.jpg".data =
    ["file".data, "10".data, ".jpg".data] := by decide
example : reSplitDigits "1a2".data =
    [[], ['1'], ['a'], ['2'], []] := by decide
example : reSplitDigits "".data = [[]] := by decide

/-- One element of a natural sort key: `int(text)` for digit runs,
`text.lower()` for the rest. -/
inductive KeyPart where
  | text : List Char → KeyPart
  | num : Nat → KeyPart
deriving DecidableEq, Repr

/-- `int(·)` on a string of decimal digits. -/
def natOfDigits (cs : List Char) : Nat :=
  cs.foldl (fun n c => 10 * n + (c.toNat - 48)) 0

/-- Python `str.isdigit` (ASCII): non-empty and all digits. -/
def pyIsDigitStr (cs : List Char) : Bool := !cs.isEmpty && cs.all isDigitChar

/-- `int(text) if text.isdigit() else text.lower()` for one piece. -/
def keyPiece (t : List Char) : KeyPart :=
  if pyIsDigitStr t then .num (natOfDigits t) else .text (t.map pyLowerChar)

/-- `LoadImageFromDirBM.natural_sort_key`. -/
def natural_sort_key (s : String) : List KeyPart :=
  (reSplitDigits (basename s).data).map keyPiece

example : natural_sort_key "file10.jpg" =
    [.text "file".data, .num 10, .text ".jpg".data] := by decide
example : natural_sort_key "D/File02.PNG" =
    [.text "file".data, .num 2, .text ".png".data] := by decide

/-! ### Comparators

Python's `sorted` compares keys with `<`.  List comparison is
lexicographic; comparing an `int` key element against a `str` key element
raises `TypeError`.  `cmpPartOpt`/`cmpKeyOpt` embed this faithfully,
returning `none` where Python would raise.  `cmpPart`/`cmpKey` are the
total variants used by the sort; `cmpKeyOpt_eq_some` below shows the two
agree on every pair of actual `natural_sort_key` values, so the total
variant never exercises its extra (`text` vs `num`) cases there. -/

/-- Three-way comparison from a linear order. -/
def cmp3 {α : Type} [LinearOrder α] (a b : α) : Ordering :=
  if a < b then .lt else if b < a then .gt else .eq

/-- Lexicographic comparison of lists from an element comparator; a strict
prefix is smaller. -/
def cmpList {α : Type} (c : α → α → Ordering) : List α → List α → Ordering
  | [], [] => .eq
  | [], _ :: _ => .lt
  | _ :: _, [] => .gt
  | a :: as, b :: bs =>
    match c a b with
    | .eq => cmpList c as bs
    | o => o

/-- Faithful comparison of key elements: `none` models Python's
`TypeError` on `int` vs `str`. -/
def cmpPartOpt : KeyPart → KeyPart → Option Ordering
  | .text a, .text b => some (cmpList cmp3 a b)
  | .num a, .num b => some (cmp3 a b)
  | _, _ => none

/-- Faithful comparison of whole keys. -/
def cmpKeyOpt : List KeyPart → List KeyPart → Option Ordering
  | [], [] => some .eq
  | [], _ :: _ => some .lt
  | _ :: _, [] => some .gt
  | a :: as, b :: bs =>
    match cmpPartOpt a b with
    | none => none
    | some .eq => cmpKeyOpt as bs
    | some o => some o

/-- Total comparison of key elements (the `text` vs `num` cases are never
reached on genuine keys; see `cmpKeyOpt_eq_some`). -/
def cmpPart : KeyPart → KeyPart → Ordering
  | .text a, .text b => cmpList cmp3 a b
  | .num a, .num b => cmp3 a b
  | .text _, .num _ => .lt
  | .num _, .text _ => .gt

/-- The key order used by the `Filename` sort mode: `x` precedes-or-ties
`y` when the natural key of `x` does not exceed that of `y`. -/
def natLe (x y : String) : Prop :=
  cmpList cmpPart (natural_sort_key x) (natural_sort_key y) ≠ .gt

instance : DecidableRel natLe := fun x y => by
  unfold natLe; infer_instance

example : natLe "file2.jpg" "file10.jpg" := by decide
example : ¬ natLe "file10.jpg" "file2.jpg" := by decide
example : natLe "file01.jpg" "file1.jpg" ∧ natLe "file1.jpg" "file01.jpg" := by decide

/-! ### The filesystem and codec collaborators -/

/-- Kind of a directory entry.  `os.listdir` enumerates entries of every
kind; the node never queries the kind of an entry. -/
inductive EntryKind where
  | file
  | directory
  | other
deriving DecidableEq, Repr

/-- A decoded raster image, as produced by `PIL.Image.open` followed by
`ImageOps.exif_transpose`: pixel grid dimensions, presence of an alpha
band, the alpha byte plane and the RGB byte planes. -/
structure ImageData where
  height : Nat
  width : Nat
  hasAlpha : Bool
  alpha : List (List Nat)
  rgb : List (List (Nat × Nat × Nat))
deriving DecidableEq, Repr

/-- A filesystem snapshot together with the image codec: `os.path.isdir`,
`os.listdir` (bare entry names, in enumeration order), entry kinds,
`os.path.getmtime`, `os.path.getsize`, and decoding (including EXIF
orientation) of the file at a path.  All are total functions: the decoder
is an external collaborator assumed to succeed on the files it is given. -/
structure FS where
  isDir : String → Bool
  listdir : String → List String
  kind : String → EntryKind
  getmtime : String → Int
  getsize : String → Nat
  decode : String → ImageData

/-- The `mtime x ≤ mtime y` relation (sort key of `Date (Oldest First)`). -/
def mtimeLe (fs : FS) (x y : String) : Prop := fs.getmtime x ≤ fs.getmtime y

/-- The `mtime x ≥ mtime y` relation (sort key of `Date (Newest First)`;
`sorted(..., reverse=True)` is the stable sort under this relation). -/
def mtimeGe (fs : FS) (x y : String) : Prop := fs.getmtime y ≤ fs.getmtime x

/-- The `size x ≤ size y` relation (sort key of `FileSize`). -/
def sizeLe (fs : FS) (x y : String) : Prop := fs.getsize x ≤ fs.getsize y

instance (fs : FS) : DecidableRel (mtimeLe fs) := fun x y => by
  unfold mtimeLe; infer_instance

instance (fs : FS) : DecidableRel (mtimeGe fs) := fun x y => by
  unfold mtimeGe; infer_instance

instance (fs : FS) : DecidableRel (sizeLe fs) := fun x y => by
  unfold sizeLe; infer_instance

/-! ### The pipeline -/

/-- The supported extensions tuple from `load_image`. -/
def valid_extensions : List String :=
  [".png", ".jpg", ".jpeg", ".webp", ".bmp", ".tiff"]

/-- `filename.lower().endswith(valid_extensions)`. -/
def hasValidExt (name : String) : Bool :=
  valid_extensions.any fun e => pyEndsWith (pyLower name) e

/-- `[p.strip() for p in directory.split(";") if os.path.isdir(p.strip())]`. -/
def parseDirs (fs : FS) (directory : String) : List String :=
  ((pySplit directory ';').map pyStrip).filter fs.isDir

/-- The nested collection loop of `load_image`: for each valid directory,
append `os.path.join(dir_path, filename)` for every listed entry whose
lowercased name ends in a supported extension. -/
def imageFiles (fs : FS) (directory : String) : List String :=
  (parseDirs fs directory).foldl
    (fun acc d =>
      (fs.listdir d).foldl
        (fun acc2 n => if hasValidExt n then acc2 ++ [pathJoin d n] else acc2)
        acc)
    []

/-- `LoadImageFromDirBM.sort_files`: CPython's `sorted` is a stable sort by
key (for `reverse=True`, a stable sort under the reversed key order), so
each branch is embedded as `insertionSort` under the branch's relation.
An unrecognised mode returns the list unchanged. -/
def sort_files (fs : FS) (files : List String) (sort_method : String) : List String :=
  if sort_method = "Filename" then files.insertionSort natLe
  else if sort_method = "Date (Newest First)" then files.insertionSort (mtimeGe fs)
  else if sort_method = "Date (Oldest First)" then files.insertionSort (mtimeLe fs)
  else if sort_method = "FileSize" then files.insertionSort (sizeLe fs)
  else files

/-- `index = max(0, min(file_number, file_count - 1))`. -/
def clampIndex (file_number : Int) (file_count : Nat) : Int :=
  max 0 (min file_number ((file_count : Int) - 1))

/-- The six-component return value of `load_image`.  Pixel values are the
byte values normalised to `[0, 1]`, represented exactly over `ℚ`; `image`
has the batch dimension prepended (`unsqueeze(0)`), as does `mask`. -/
structure LoadResult where
  image : List (List (List (ℚ × ℚ × ℚ)))
  mask : List (List (List ℚ))
  filepath : String
  filename : String
  filename_no_ext : String
  file_count : Nat
deriving DecidableEq, Repr

/-- The mask plane computed by `load_image`: `1.0 - alpha/255` per pixel
when the image has an alpha band, otherwise the 64×64 all-zero default. -/
def maskOf (img : ImageData) : List (List ℚ) :=
  if img.hasAlpha then
    img.alpha.map fun row => row.map fun (a : Nat) => 1 - (a : ℚ) / 255
  else List.replicate 64 (List.replicate 64 0)

/-- The normalised RGB pixel grid (`np.array(image) / 255.0`). -/
def tensorOf (img : ImageData) : List (List (ℚ × ℚ × ℚ)) :=
  img.rgb.map fun row =>
    row.map fun p => ((p.1 : ℚ) / 255, (p.2.1 : ℚ) / 255, (p.2.2 : ℚ) / 255)

/-- `LoadImageFromDirBM.load_image`.  The only `raise` in the function is
the `FileNotFoundError` on an empty candidate list; the decoder is
modelled as a total collaborator. -/
def load_image (fs : FS) (directory : String) (file_number : Int)
    (sort_by : String) : Except String LoadResult :=
  let sortedFiles := sort_files fs (imageFiles fs directory) sort_by
  let file_count := sortedFiles.length
  if file_count = 0 then
    .error "No valid image files found in the given directory/directories."
  else
    let index := clampIndex file_number file_count
    let image_path := sortedFiles.getD index.toNat ""
    let fname := basename image_path
    let img := fs.decode image_path
    .ok { image := [tensorOf img]
          mask := [maskOf img]
          filepath := image_path
          filename := fname
          filename_no_ext := (splitext fname).1
          file_count := file_count }

/-! ### Concrete snapshots used in examples, witnesses and counterexamples -/

/-- A 1×3 RGBA test image with alpha bytes 0, 128, 255. -/
def imgAlpha : ImageData :=
  { height := 1
    width := 3
    hasAlpha := true
    alpha := [[0, 128, 255]]
    rgb := [[(255, 0, 0), (0, 255, 0), (0, 0, 255)]] }

/-- A 1×1 RGB test image without alpha. -/
def imgPlain : ImageData :=
  { height := 1
    width := 1
    hasAlpha := false
    alpha := []
    rgb := [[(0, 0, 0)]] }

/-- Snapshot with one directory `A` holding one RGBA image `img.png`. -/
def fsA : FS :=
  { isDir := fun s => s == "A"
    listdir := fun s => if s == "A" then ["img.png"] else []
    kind := fun _ => .file
    getmtime := fun _ => 0
    getsize := fun _ => 0
    decode := fun _ => imgAlpha }

/-- Snapshot with directories `A` (holding `a.png`) and `B` (holding
`b.jpg`), used for the directory-union example. -/
def fsAB : FS :=
  { isDir := fun s => s == "A" || s == "B"
    listdir := fun s => if s == "A" then ["a.png"] else if s == "B" then ["b.jpg"] else []
    kind := fun _ => .file
    getmtime := fun _ => 0
    getsize := fun _ => 0
    decode := fun _ => imgPlain }

example : imageFiles fsAB "A;B" = ["A/a.png", "B/b.jpg"] := by decide
example : imageFiles fsA "A" = ["A/img.png"] := by decide
example : sort_files fsA ["file2.jpg", "file10.jpg", "file1.jpg"] "Filename" =
    ["file1.jpg", "file2.jpg", "file10.jpg"] := by decide

/-! ### Laws of the comparators -/

theorem cmp3_eq_iff {α : Type} [LinearOrder α] (a b : α) : cmp3 a b = .eq ↔ a = b := by
  unfold cmp3
  rcases lt_trichotomy a b with h | h | h
  · simp [h, h.ne]
  · simp [h]
  · simp [h, lt_asymm h, (lt_iff_le_and_ne.mp h).2.symm]

theorem cmp3_lt_iff {α : Type} [LinearOrder α] (a b : α) : cmp3 a b = .lt ↔ a < b := by
  unfold cmp3
  rcases lt_trichotomy a b with h | h | h
  · simp [h]
  · simp [h, lt_irrefl]
  · simp [h, lt_asymm h]

theorem cmp3_swap {α : Type} [LinearOrder α] (a b : α) : (cmp3 a b).swap = cmp3 b a := by
  unfold cmp3
  rcases lt_trichotomy a b with h | h | h
  · simp [h, lt_asymm h, Ordering.swap]
  · simp [h, lt_irrefl, Ordering.swap]
  · simp [h, lt_asymm h, Ordering.swap]

theorem cmp3_lt_trans {α : Type} [LinearOrder α] {a b d : α}
    (h1 : cmp3 a b = .lt) (h2 : cmp3 b d = .lt) : cmp3 a d = .lt :=
  (cmp3_lt_iff a d).mpr (lt_trans ((cmp3_lt_iff a b).mp h1) ((cmp3_lt_iff b d).mp h2))

theorem cmpList_eq_iff {α : Type} (c : α → α → Ordering)
    (heq : ∀ a b, c a b = .eq ↔ a = b) :
    ∀ as bs : List α, cmpList c as bs = .eq ↔ as = bs := by
  intro as
  induction as with
  | nil => intro bs; cases bs <;> simp [cmpList]
  | cons a as ih =>
    intro bs
    cases bs with
    | nil => simp [cmpList]
    | cons b bs =>
      simp only [cmpList]
      cases h : c a b with
      | lt => simp_all [(heq a b).symm]
      | eq => have hab := (heq a b).mp h; subst hab; simp [ih bs]
      | gt => simp_all [(heq a b).symm]

theorem cmpList_swap {α : Type} (c : α → α → Ordering)
    (hswap : ∀ a b, (c a b).swap = c b a) :
    ∀ as bs : List α, (cmpList c as bs).swap = cmpList c bs as := by
  intro as
  induction as with
  | nil => intro bs; cases bs <;> rfl
  | cons a as ih =>
    intro bs
    cases bs with
    | nil => rfl
    | cons b bs =>
      have hs := hswap a b
      simp only [cmpList]
      cases h : c a b with
      | lt => rw [h] at hs; rw [← hs]; rfl
      | eq => rw [h] at hs; rw [← hs]; exact ih bs
      | gt => rw [h] at hs; rw [← hs]; rfl

theorem cmpList_lt_trans {α : Type} (c : α → α → Ordering)
    (heq : ∀ a b, c a b = .eq ↔ a = b)
    (hlt : ∀ a b d, c a b = .lt → c b d = .lt → c a d = .lt) :
    ∀ as bs ds : List α,
      cmpList c as bs = .lt → cmpList c bs ds = .lt → cmpList c as ds = .lt := by
  intro as
  induction as with
  | nil =>
    intro bs ds _ h2
    cases bs with
    | nil => exact h2
    | cons b bs =>
      cases ds with
      | nil => simp [cmpList] at h2
      | cons d ds => simp [cmpList]
  | cons a as ih =>
    intro bs ds h1 h2
    cases bs with
    | nil => simp [cmpList] at h1
    | cons b bs =>
      cases ds with
      | nil => simp [cmpList] at h2
      | cons d ds =>
        simp only [cmpList] at h1 h2 ⊢
        cases hab : c a b with
        | gt => rw [hab] at h1; exact absurd h1 (by simp)
        | eq =>
          have := (heq a b).mp hab; subst this
          rw [hab] at h1
          cases hbd : c a d with
          | lt => simp
          | eq =>
            have := (heq a d).mp hbd; subst this
            rw [hbd] at h2
            rw [ih bs ds h1 h2]
          | gt => rw [hbd] at h2; exact absurd h2 (by simp)
        | lt =>
          cases hbd : c b d with
          | lt => rw [hlt a b d hab hbd]
          | eq =>
            have := (heq b d).mp hbd; subst this
            rw [hab]
          | gt => rw [hbd] at h2; exact absurd h2 (by simp)

theorem cmpPart_eq_iff (x y : KeyPart) : cmpPart x y = .eq ↔ x = y := by
  cases x <;> cases y <;> simp [cmpPart, cmpList_eq_iff cmp3 cmp3_eq_iff, cmp3_eq_iff]

theorem cmpPart_swap (x y : KeyPart) : (cmpPart x y).swap = cmpPart y x := by
  cases x <;> cases y
  · exact cmpList_swap cmp3 cmp3_swap _ _
  · rfl
  · rfl
  · exact cmp3_swap _ _

theorem cmpPart_lt_trans {x y z : KeyPart}
    (h1 : cmpPart x y = .lt) (h2 : cmpPart y z = .lt) : cmpPart x z = .lt := by
  cases x <;> cases y <;> cases z <;> simp_all [cmpPart]
  · exact cmpList_lt_trans cmp3 cmp3_eq_iff (fun _ _ _ => cmp3_lt_trans) _ _ _ h1 h2
  · exact cmp3_lt_trans h1 h2

/-- Comparison of two natural sort keys, as the sort performs it. -/
def cmpKeys (x y : String) : Ordering :=
  cmpList cmpPart (natural_sort_key x) (natural_sort_key y)

theorem natLe_def (x y : String) : natLe x y ↔ cmpKeys x y ≠ .gt := Iff.rfl

theorem cmpKeys_eq_iff (x y : String) :
    cmpKeys x y = .eq ↔ natural_sort_key x = natural_sort_key y :=
  cmpList_eq_iff cmpPart cmpPart_eq_iff _ _

theorem cmpKeys_swap (x y : String) : (cmpKeys x y).swap = cmpKeys y x :=
  cmpList_swap cmpPart cmpPart_swap _ _

theorem natLe_total (x y : String) : natLe x y ∨ natLe y x := by
  unfold natLe
  by_cases h : cmpList cmpPart (natural_sort_key x) (natural_sort_key y) = .gt
  · right
    have hs := cmpKeys_swap x y
    unfold cmpKeys at hs
    rw [h] at hs
    rw [← hs]
    simp [Ordering.swap]
  · left; exact h

theorem natLe_trans {x y z : String} (h1 : natLe x y) (h2 : natLe y z) : natLe x z := by
  unfold natLe at h1 h2 ⊢
  cases hxy : cmpList cmpPart (natural_sort_key x) (natural_sort_key y) with
  | gt => exact absurd hxy h1
  | eq =>
    have := (cmpList_eq_iff cmpPart cmpPart_eq_iff _ _).mp hxy
    rw [this]
    exact h2
  | lt =>
    cases hyz : cmpList cmpPart (natural_sort_key y) (natural_sort_key z) with
    | gt => exact absurd hyz h2
    | eq =>
      have := (cmpList_eq_iff cmpPart cmpPart_eq_iff _ _).mp hyz
      rw [← this, hxy]
      simp
    | lt =>
      rw [cmpList_lt_trans cmpPart cmpPart_eq_iff
        (fun _ _ _ => cmpPart_lt_trans) _ _ _ hxy hyz]
      simp

instance : IsTotal String natLe := ⟨natLe_total⟩

instance : IsTrans String natLe := ⟨fun _ _ _ => natLe_trans⟩

/-- Two paths that tie under the `Filename` comparator have equal keys. -/
theorem key_eq_of_natLe_natLe {x y : String} (h1 : natLe x y) (h2 : natLe y x) :
    natural_sort_key x = natural_sort_key y := by
  unfold natLe at h1 h2
  rcases hxy : cmpList cmpPart (natural_sort_key x) (natural_sort_key y) with _ | _ | _
  · exfalso
    have hs := cmpKeys_swap x y
    unfold cmpKeys at hs
    rw [hxy] at hs
    exact h2 hs.symm
  · exact (cmpList_eq_iff cmpPart cmpPart_eq_iff _ _).mp hxy
  · exact absurd hxy h1

/-- Equal keys tie under the `Filename` comparator. -/
theorem natLe_of_key_eq {x y : String}
    (h : natural_sort_key x = natural_sort_key y) : natLe x y := by
  unfold natLe
  rw [show cmpList cmpPart (natural_sort_key x) (natural_sort_key y) = .eq from
    (cmpList_eq_iff cmpPart cmpPart_eq_iff _ _).mpr h]
  simp

/-! ### Alternation of the split and of the key -/

/-- Shape invariant of `re.split(r'(\d+)', ·)`: starting at parity `true`,
pieces at even positions contain no digit and pieces at odd positions are
non-empty digit runs. -/
def altPieces : Bool → List (List Char) → Bool
  | _, [] => true
  | true, t :: rest => t.all (fun c => !isDigitChar c) && altPieces false rest
  | false, d :: rest => (!d.isEmpty && d.all isDigitChar) && altPieces true rest

/-- Shape invariant of a natural sort key: text parts at even positions,
numeric parts at odd positions. -/
def altKey : Bool → List KeyPart → Bool
  | _, [] => true
  | true, .text _ :: rest => altKey false rest
  | true, .num _ :: _ => false
  | false, .num _ :: rest => altKey true rest
  | false, .text _ :: _ => false

theorem altPieces_reSplitDigits (cs : List Char) :
    altPieces true (reSplitDigits cs) = true ∧ reSplitDigits cs ≠ [] := by
  induction cs with
  | nil => exact ⟨rfl, by simp [reSplitDigits]⟩
  | cons c cs ih =>
    obtain ⟨halt, hne⟩ := ih
    rcases hr : reSplitDigits cs with _ | ⟨t, rest⟩
    · exact absurd hr hne
    · rw [hr] at halt
      simp only [altPieces, Bool.and_eq_true] at halt
      obtain ⟨ht, hrest⟩ := halt
      by_cases hd : isDigitChar c = true
      · cases rest with
        | nil =>
          simp only [reSplitDigits, hr, hd, if_true]
          refine ⟨?_, by simp⟩
          simp [altPieces, ht, hd]
        | cons d rest2 =>
          simp only [altPieces, Bool.and_eq_true] at hrest
          obtain ⟨⟨hdne, hdall⟩, hrest2⟩ := hrest
          by_cases htnil : t = []
          · subst htnil
            simp only [reSplitDigits, hr, hd, if_true, if_pos rfl]
            refine ⟨?_, by simp⟩
            simp [altPieces, hd, hdall, hdne, hrest2]
          · simp only [reSplitDigits, hr, hd, if_true, if_neg htnil]
            refine ⟨?_, by simp⟩
            simp [altPieces, hd, ht, hdall, hdne, hrest2]
      · simp only [reSplitDigits, hr, hd, if_false]
        refine ⟨?_, by simp⟩
        simp only [Bool.not_eq_true] at hd
        simp [altPieces, ht, hd, hrest]

theorem altKey_map_keyPiece :
    ∀ (b : Bool) (ps : List (List Char)), altPieces b ps = true →
      altKey b (ps.map keyPiece) = true := by
  intro b ps
  induction ps generalizing b with
  | nil => intro _; cases b <;> rfl
  | cons p ps ih =>
    intro h
    cases b with
    | true =>
      simp only [altPieces, Bool.and_eq_true] at h
      obtain ⟨hp, hrest⟩ := h
      have hkp : keyPiece p = .text (p.map pyLowerChar) := by
        unfold keyPiece
        rw [if_neg]
        intro hdig
        unfold pyIsDigitStr at hdig
        simp only [Bool.and_eq_true, Bool.not_eq_true'] at hdig
        obtain ⟨hne, hall⟩ := hdig
        cases p with
        | nil => simp at hne
        | cons q qs =>
          have h1 := (List.all_eq_true.mp hp) q (by simp)
          have h2 := (List.all_eq_true.mp hall) q (by simp)
          simp [h2] at h1
      simp [hkp, altKey, ih false hrest]
    | false =>
      simp only [altPieces, Bool.and_eq_true] at h
      obtain ⟨⟨hne, hall⟩, hrest⟩ := h
      have hkp : keyPiece p = .num (natOfDigits p) := by
        unfold keyPiece
        rw [if_pos]
        unfold pyIsDigitStr
        simp [hne, hall]
      simp [hkp, altKey, ih true hrest]

/-- Every natural sort key alternates: text parts at even positions,
numeric parts at odd positions. -/
theorem altKey_natural_sort_key (s : String) :
    altKey true (natural_sort_key s) = true :=
  altKey_map_keyPiece true _ (altPieces_reSplitDigits (basename s).data).1

/-- On alternating keys of equal parity, the faithful comparator (which
returns `none` exactly where CPython would raise `TypeError` comparing an
`int` against a `str`) is defined and agrees with the total comparator
driving the sort. -/
theorem cmpKeyOpt_eq_some :
    ∀ (b : Bool) (k1 k2 : List KeyPart), altKey b k1 = true → altKey b k2 = true →
      cmpKeyOpt k1 k2 = some (cmpList cmpPart k1 k2) := by
  intro b k1
  induction k1 generalizing b with
  | nil => intro k2 _ _; cases k2 <;> rfl
  | cons a k1 ih =>
    intro k2 h1 h2
    cases k2 with
    | nil => rfl
    | cons c k2 =>
      cases b with
      | true =>
        cases a with
        | num => simp [altKey] at h1
        | text ta =>
          cases c with
          | num => simp [altKey] at h2
          | text tc =>
            simp only [altKey] at h1 h2
            simp only [cmpKeyOpt, cmpPartOpt, cmpList, cmpPart]
            cases h : cmpList cmp3 ta tc with
            | eq => simpa using ih false k2 h1 h2
            | lt => simp
            | gt => simp
      | false =>
        cases a with
        | text => simp [altKey] at h1
        | num na =>
          cases c with
          | text => simp [altKey] at h2
          | num nc =>
            simp only [altKey] at h1 h2
            simp only [cmpKeyOpt, cmpPartOpt, cmpList, cmpPart]
            cases h : cmp3 na nc with
            | eq => simpa using ih true k2 h1 h2
            | lt => simp
            | gt => simp

/-! ### Structure of the collection step -/

/-- The contribution of one valid directory to the candidate sequence:
its listed entries with a supported extension, joined to the directory,
in enumeration order. -/
def dirMatches (fs : FS) (d : String) : List String :=
  ((fs.listdir d).filter hasValidExt).map (pathJoin d)

theorem foldl_filter_append {α β : Type} (p : α → Bool) (f : α → β) :
    ∀ (l : List α) (acc : List β),
      l.foldl (fun a x => if p x then a ++ [f x] else a) acc
        = acc ++ (l.filter p).map f := by
  intro l
  induction l with
  | nil => intro acc; simp
  | cons x l ih =>
    intro acc
    by_cases h : p x
    · simp [List.foldl_cons, h, ih, List.filter_cons]
    · simp [List.foldl_cons, h, ih, List.filter_cons]

theorem foldl_append_flatMap {α β : Type} (F : List β → α → List β) (g : α → List β)
    (hF : ∀ acc d, F acc d = acc ++ g d) :
    ∀ (l : List α) (acc : List β), l.foldl F acc = acc ++ l.flatMap g := by
  intro l
  induction l with
  | nil => intro acc; simp
  | cons d l ih => intro acc; simp [List.foldl_cons, hF, ih]

/-- The nested collection loop equals the concatenation, per valid
directory in input order, of that directory's matching entries. -/
theorem imageFiles_eq_flatMap (fs : FS) (directory : String) :
    imageFiles fs directory = (parseDirs fs directory).flatMap (dirMatches fs) := by
  unfold imageFiles
  rw [foldl_append_flatMap _ (dirMatches fs) (fun acc d => foldl_filter_append hasValidExt (pathJoin d) (fs.listdir d) acc)]
  simp

/-! ### Structure of the sort step -/

theorem sort_files_perm (fs : FS) (files : List String) (m : String) :
    List.Perm (sort_files fs files m) files := by
  unfold sort_files
  split_ifs
  · exact List.perm_insertionSort natLe files
  · exact List.perm_insertionSort (mtimeGe fs) files
  · exact List.perm_insertionSort (mtimeLe fs) files
  · exact List.perm_insertionSort (sizeLe fs) files
  · exact List.Perm.refl files

theorem sort_files_length (fs : FS) (files : List String) (m : String) :
    (sort_files fs files m).length = files.length :=
  (sort_files_perm fs files m).length_eq

theorem mem_sort_files {fs : FS} {files : List String} {m : String} {x : String} :
    x ∈ sort_files fs files m ↔ x ∈ files :=
  (sort_files_perm fs files m).mem_iff

/-- Stability of the stable sort, in filtered form: the elements
satisfying `p` keep exactly their input order, provided any two of them
are related by the sort relation (as is the case for a tie class). -/
theorem filter_insertionSort_eq {α : Type} (r : α → α → Prop) [DecidableRel r]
    (l : List α) (p : α → Bool) (hp : (l.filter p).Pairwise r) :
    (l.insertionSort r).filter p = l.filter p := by
  have h1 : List.Sublist (l.filter p) (l.insertionSort r) :=
    List.sublist_insertionSort hp (List.filter_sublist l)
  have h2 : List.Sublist (l.filter p) ((l.insertionSort r).filter p) := by
    have := h1.filter p
    rwa [List.filter_eq_self.mpr (fun a ha => List.of_mem_filter ha)] at this
  have h3 : ((l.insertionSort r).filter p).length = (l.filter p).length :=
    ((List.perm_insertionSort r l).filter p).length_eq
  exact (h2.eq_of_length h3.symm).symm

/-- A sorted list is determined by its multiset of elements once the sort
relation is antisymmetric on those elements. -/
theorem eq_of_perm_of_sorted_of_anti {α : Type} {r : α → α → Prop} :
    ∀ {l1 l2 : List α}, List.Perm l1 l2 → l1.Sorted r → l2.Sorted r →
      (∀ x ∈ l1, ∀ y ∈ l1, r x y → r y x → x = y) → l1 = l2 := by
  intro l1
  induction l1 with
  | nil =>
    intro l2 hp _ _ _
    exact List.Perm.nil_eq hp
  | cons a t1 ih =>
    intro l2 hp hs1 hs2 hanti
    cases l2 with
    | nil => exact absurd (List.perm_nil.mp hp) (List.cons_ne_nil a t1)
    | cons b t2 =>
      have hab : a = b := by
        have hbmem : b ∈ a :: t1 := hp.mem_iff.mpr (List.mem_cons_self b t2)
        have hamem : a ∈ b :: t2 := hp.mem_iff.mp (List.mem_cons_self a t1)
        rcases List.mem_cons.mp hbmem with h | h
        · exact h.symm
        · rcases List.mem_cons.mp hamem with h' | h'
          · exact h'
          · have hrab : r a b := (List.sorted_cons.mp hs1).1 b h
            have hrba : r b a := (List.sorted_cons.mp hs2).1 a h'
            exact hanti a (List.mem_cons_self a t1) b hbmem hrab hrba
      subst hab
      have ht : List.Perm t1 t2 := hp.cons_inv
      rw [ih ht (List.sorted_cons.mp hs1).2 (List.sorted_cons.mp hs2).2
        (fun x hx y hy => hanti x (List.mem_cons_of_mem a hx) y (List.mem_cons_of_mem a hy))]

/-- Permuting each directory's listing permutes the concatenated
candidate sequence. -/
theorem flatMap_perm_of_perm {α β : Type} (l : List α) {g1 g2 : α → List β}
    (h : ∀ d ∈ l, List.Perm (g1 d) (g2 d)) :
    List.Perm (l.flatMap g1) (l.flatMap g2) := by
  induction l with
  | nil => simp
  | cons d l ih =>
    simp only [List.flatMap_cons]
    exact (h d (List.mem_cons_self d l)).append
      (ih (fun x hx => h x (List.mem_cons_of_mem d hx)))

instance (fs : FS) : IsTotal String (mtimeLe fs) := ⟨fun _ _ => le_total _ _⟩

instance (fs : FS) : IsTrans String (mtimeLe fs) := ⟨fun _ _ _ => le_trans⟩

instance (fs : FS) : IsTotal String (mtimeGe fs) := ⟨fun _ _ => (le_total _ _).symm⟩

instance (fs : FS) : IsTrans String (mtimeGe fs) := ⟨fun _ _ _ h1 h2 => le_trans h2 h1⟩

instance (fs : FS) : IsTotal String (sizeLe fs) := ⟨fun _ _ => le_total _ _⟩

instance (fs : FS) : IsTrans String (sizeLe fs) := ⟨fun _ _ _ => le_trans⟩

theorem sorted_sort_files_filename (fs : FS) (files : List String) :
    List.Sorted natLe (sort_files fs files "Filename") := by
  unfold sort_files
  rw [if_pos rfl]
  exact List.sorted_insertionSort natLe files

theorem sorted_sort_files_newest (fs : FS) (files : List String) :
    List.Sorted (mtimeGe fs) (sort_files fs files "Date (Newest First)") := by
  unfold sort_files
  rw [if_neg (by decide), if_pos rfl]
  exact List.sorted_insertionSort (mtimeGe fs) files

theorem sorted_sort_files_oldest (fs : FS) (files : List String) :
    List.Sorted (mtimeLe fs) (sort_files fs files "Date (Oldest First)") := by
  unfold sort_files
  rw [if_neg (by decide), if_neg (by decide), if_pos rfl]
  exact List.sorted_insertionSort (mtimeLe fs) files

theorem sorted_sort_files_size (fs : FS) (files : List String) :
    List.Sorted (sizeLe fs) (sort_files fs files "FileSize") := by
  unfold sort_files
  rw [if_neg (by decide), if_neg (by decide), if_neg (by decide), if_pos rfl]
  exact List.sorted_insertionSort (sizeLe fs) files

/-! ### Unfolding `load_image` -/

/-- The sorted candidate sequence of an invocation. -/
def sortedFiles (fs : FS) (directory : String) (sort_by : String) : List String :=
  sort_files fs (imageFiles fs directory) sort_by

/-- The path selected by an invocation (meaningful when candidates exist). -/
def selectedPath (fs : FS) (directory : String) (file_number : Int)
    (sort_by : String) : String :=
  (sortedFiles fs directory sort_by).getD
    (clampIndex file_number (sortedFiles fs directory sort_by).length).toNat ""

theorem load_image_error_iff (fs : FS) (directory : String) (file_number : Int)
    (sort_by : String) :
    load_image fs directory file_number sort_by
        = .error "No valid image files found in the given directory/directories."
      ↔ imageFiles fs directory = [] := by
  unfold load_image
  by_cases h : (sort_files fs (imageFiles fs directory) sort_by).length = 0
  · rw [if_pos h]
    rw [sort_files_length] at h
    simp [List.length_eq_zero.mp h]
  · rw [if_neg h]
    rw [sort_files_length] at h
    constructor
    · intro hc; exact absurd hc (by simp)
    · intro hc; rw [hc] at h; simp at h

theorem load_image_ok (fs : FS) (directory : String) (file_number : Int)
    (sort_by : String) (h : imageFiles fs directory ≠ []) :
    load_image fs directory file_number sort_by = .ok
      { image := [tensorOf (fs.decode (selectedPath fs directory file_number sort_by))]
        mask := [maskOf (fs.decode (selectedPath fs directory file_number sort_by))]
        filepath := selectedPath fs directory file_number sort_by
        filename := basename (selectedPath fs directory file_number sort_by)
        filename_no_ext := (splitext (basename (selectedPath fs directory file_number sort_by))).1
        file_count := (sortedFiles fs directory sort_by).length } := by
  unfold load_image selectedPath sortedFiles
  rw [if_neg]
  rw [sort_files_length]
  intro hc
  exact h (List.length_eq_zero.mp hc)

/-! ### Further helper lemmas -/

theorem clampIndex_toNat_lt (fn : Int) {n : Nat} (h : 0 < n) :
    (clampIndex fn n).toNat < n := by
  unfold clampIndex; omega

theorem selectedPath_mem (fs : FS) (directory : String) (file_number : Int)
    (sort_by : String) (h : sortedFiles fs directory sort_by ≠ []) :
    selectedPath fs directory file_number sort_by ∈ sortedFiles fs directory sort_by := by
  unfold selectedPath
  have hidx := clampIndex_toNat_lt file_number (List.length_pos.mpr h)
  rw [List.getD_eq_getElem _ _ hidx]
  exact List.getElem_mem hidx

theorem splitext_append (p : String) : (splitext p).1 ++ (splitext p).2 = p := by
  unfold splitext
  rcases hw : p.data.reverse.dropWhile notDotSlash with _ | ⟨c, preR⟩
  · simp
  · dsimp only
    show (if (c == '.') = true then _ else (p, "")).1 ++ (if (c == '.') = true then _ else (p, "")).2 = p
    by_cases hc : (c == '.') = true
    · rw [if_pos hc]
      by_cases hpre : ((preR.takeWhile notSlash).any notDot) = true
      · rw [if_pos hpre]
        apply String.ext
        rw [String.data_append]
        show preR.reverse ++ '.' :: (p.data.reverse.takeWhile notDotSlash).reverse = p.data
        have hsplit : p.data.reverse.takeWhile notDotSlash
            ++ p.data.reverse.dropWhile notDotSlash = p.data.reverse :=
          List.takeWhile_append_dropWhile notDotSlash p.data.reverse
        rw [hw] at hsplit
        have h2 := congrArg List.reverse hsplit
        rw [List.reverse_append, List.reverse_reverse] at h2
        have hcc : c = '.' := by simpa using hc
        subst hcc
        simpa using h2
      · rw [if_neg hpre]; simp
    · rw [if_neg hc]; simp

theorem count_filter_eq {α : Type} [DecidableEq α] (p : α → Bool) (l : List α) (a : α) :
    (l.filter p).count a = if p a then l.count a else 0 := by
  induction l with
  | nil => simp
  | cons x l ih =>
    by_cases hx : p x = true
    · rw [List.filter_cons_of_pos hx]
      by_cases hxa : x = a
      · subst hxa; simp [hx, ih, List.count_cons]
      · simp [List.count_cons, hxa, ih]
    · rw [List.filter_cons_of_neg hx]
      by_cases hxa : x = a
      · subst hxa; simp [hx, ih, List.count_cons]
      · simp [List.count_cons, hxa, ih]

theorem pyLower_append (a b : String) : pyLower (a ++ b) = pyLower a ++ pyLower b := by
  apply String.ext
  unfold pyLower
  rw [String.data_append]
  show (a.data ++ b.data).map pyLowerChar = (pyLower a ++ pyLower b).data
  rw [String.data_append]
  simp [pyLower]

theorem pyEndsWith_append (x s e : String) (h : pyEndsWith s e = true) :
    pyEndsWith (x ++ s) e = true := by
  unfold pyEndsWith at h ⊢
  rw [String.data_append]
  have hs : e.data <:+ s.data := List.isSuffixOf_iff_suffix.mp h
  exact List.isSuffixOf_iff_suffix.mpr (hs.trans (List.suffix_append x.data s.data))

/-- The extension filter transfers from the bare entry name to the joined
path. -/
theorem hasValidExt_pathJoin (d name : String) (h : hasValidExt name = true) :
    hasValidExt (pathJoin d name) = true := by
  unfold hasValidExt at h ⊢
  rw [List.any_eq_true] at h ⊢
  obtain ⟨e, he, hsuf⟩ := h
  refine ⟨e, he, ?_⟩
  unfold pathJoin
  by_cases h1 : startsWithSlash name = true
  · rw [if_pos h1]; exact hsuf
  · rw [if_neg h1]
    by_cases h2 : (d = "" || endsWithSlash d) = true
    · rw [if_pos h2, pyLower_append]
      exact pyEndsWith_append _ _ _ hsuf
    · rw [if_neg h2]
      rw [show d ++ "/" ++ name = d ++ ("/" ++ name) from by rw [String.append_assoc]]
      rw [pyLower_append]
      apply pyEndsWith_append
      rw [pyLower_append]
      exact pyEndsWith_append _ _ _ hsuf

/-- Fallback value for reading a successful result out of an `Except`. -/
def emptyResult : LoadResult :=
  { image := []
    mask := []
    filepath := ""
    filename := ""
    filename_no_ext := ""
    file_count := 0 }

/-- The payload of a successful invocation. -/
def okResult (x : Except String LoadResult) : LoadResult :=
  match x with
  | .ok o => o
  | .error _ => emptyResult

/-- The result of loading from the one-image snapshot `fsA`. -/
def resA : LoadResult := okResult (load_image fsA "A" 0 "Filename")

/-- The tie under the sort mode's key: both invocation keys are equal. -/
def sortKeysTie (fs : FS) (mode x y : String) : Prop :=
  if mode = "Filename" then natural_sort_key x = natural_sort_key y
  else if mode = "Date (Newest First)" then fs.getmtime x = fs.getmtime y
  else if mode = "Date (Oldest First)" then fs.getmtime x = fs.getmtime y
  else if mode = "FileSize" then fs.getsize x = fs.getsize y
  else True

/-- Snapshot whose only candidate is a directory entry named `sub.png`:
`os.listdir` reports entries of every kind and the node filters by name
only. -/
def fsKind : FS :=
  { isDir := fun s => s == "A"
    listdir := fun s => if s == "A" then ["sub.png"] else []
    kind := fun s => if s == "A/sub.png" then .directory else .file
    getmtime := fun _ => 0
    getsize := fun _ => 0
    decode := fun _ => imgPlain }

/-- Snapshot with two files whose natural keys tie (`a01.png`, `a1.png`),
listed in one order. -/
def fsT1 : FS :=
  { isDir := fun s => s == "A"
    listdir := fun s => if s == "A" then ["a01.png", "a1.png"] else []
    kind := fun _ => .file
    getmtime := fun _ => 0
    getsize := fun _ => 0
    decode := fun _ => imgPlain }

/-- The same snapshot as `fsT1` except that the directory enumeration
yields the two files in the opposite order. -/
def fsT2 : FS :=
  { isDir := fun s => s == "A"
    listdir := fun s => if s == "A" then ["a1.png", "a01.png"] else []
    kind := fun _ => .file
    getmtime := fun _ => 0
    getsize := fun _ => 0
    decode := fun _ => imgPlain }

/-- Snapshot with two files of distinct natural keys, listed b-first. -/
def fsW1 : FS :=
  { isDir := fun s => s == "A"
    listdir := fun s => if s == "A" then ["b.png", "a.png"] else []
    kind := fun _ => .file
    getmtime := fun _ => 0
    getsize := fun _ => 0
    decode := fun _ => imgPlain }

/-- The same snapshot as `fsW1` with the enumeration order reversed. -/
def fsW2 : FS :=
  { isDir := fun s => s == "A"
    listdir := fun s => if s == "A" then ["a.png", "b.png"] else []
    kind := fun _ => .file
    getmtime := fun _ => 0
    getsize := fun _ => 0
    decode := fun _ => imgPlain }

/-! ### The claims -/

/-- C1: whenever the candidate file count is positive, the selected index
equals `max(0, min(fileNumber, fileCount - 1))`; consequently it lies in
`[0, fileCount)`, a `fileNumber ≥ fileCount` selects index
`fileCount - 1`, a negative `fileNumber` selects index `0`, and the
returned filepath is the sorted candidate at the selected index. -/
theorem C1_selected_index_clamped (fs : FS) (directory : String)
    (file_number : Int) (sort_by : String) (n : Nat)
    (hn : n = (sortedFiles fs directory sort_by).length) (hpos : 0 < n) :
    clampIndex file_number n = max 0 (min file_number ((n : Int) - 1)) ∧
    0 ≤ clampIndex file_number n ∧
    clampIndex file_number n < (n : Int) ∧
    ((n : Int) ≤ file_number → clampIndex file_number n = (n : Int) - 1) ∧
    (file_number < 0 → clampIndex file_number n = 0) ∧
    ∃ o, load_image fs directory file_number sort_by = .ok o ∧
      o.filepath = (sortedFiles fs directory sort_by).getD
        (clampIndex file_number n).toNat "" := by
  have hb1 : 0 ≤ clampIndex file_number n := by unfold clampIndex; omega
  have hb2 : clampIndex file_number n < (n : Int) := by unfold clampIndex; omega
  refine ⟨rfl, hb1, hb2, ?_, ?_, ?_⟩
  · intro h; unfold clampIndex; omega
  · intro h; unfold clampIndex; omega
  · have hne : imageFiles fs directory ≠ [] := by
      intro hc
      rw [hn] at hpos
      unfold sortedFiles at hpos
      rw [hc, sort_files_length] at hpos
      simp at hpos
    refine ⟨_, load_image_ok fs directory file_number sort_by hne, ?_⟩
    show selectedPath fs directory file_number sort_by = _
    unfold selectedPath
    rw [hn]

/-- Witness for C1: the one-image snapshot `fsA`, requested index 5,
clamped to the single candidate. -/
theorem C1_witness :
    clampIndex 5 1 = max 0 (min 5 ((1 : Int) - 1)) ∧
    0 ≤ clampIndex 5 1 ∧
    clampIndex 5 1 < ((1 : Nat) : Int) ∧
    (((1 : Nat) : Int) ≤ 5 → clampIndex 5 1 = ((1 : Nat) : Int) - 1) ∧
    ((5 : Int) < 0 → clampIndex 5 1 = 0) ∧
    ∃ o, load_image fsA "A" 5 "Filename" = .ok o ∧
      o.filepath = (sortedFiles fsA "A" "Filename").getD (clampIndex 5 1).toNat "" :=
  C1_selected_index_clamped fsA "A" 5 "Filename" 1 (by decide) (by decide)

/-- C2: under the `Filename` mode the candidate sequence is ordered by the
natural alphanumeric comparator on the bare filename (`natLe`, built from
`natural_sort_key`, which strips the directory, splits into digit and
non-digit runs, compares digit runs as integers and other runs
case-insensitively); in particular `["file2.jpg","file10.jpg","file1.jpg"]`
sorts to `["file1.jpg","file2.jpg","file10.jpg"]`. -/
theorem C2_filename_natural_order (fs : FS) (files : List String) :
    List.Sorted natLe (sort_files fs files "Filename") ∧
    List.Perm (sort_files fs files "Filename") files ∧
    sort_files fs ["file2.jpg", "file10.jpg", "file1.jpg"] "Filename"
      = ["file1.jpg", "file2.jpg", "file10.jpg"] := by
  refine ⟨sorted_sort_files_filename fs files, sort_files_perm fs files "Filename", ?_⟩
  have h : sort_files fs ["file2.jpg", "file10.jpg", "file1.jpg"] "Filename"
      = List.insertionSort natLe ["file2.jpg", "file10.jpg", "file1.jpg"] := by
    unfold sort_files
    rw [if_pos rfl]
  rw [h]
  decide

/-- C3: the invocation fails with the "file not found" error exactly when
no candidate file remains after directory validation and extension
filtering, and succeeds with the six-component result otherwise. -/
theorem C3_error_iff_no_candidates (fs : FS) (directory : String)
    (file_number : Int) (sort_by : String) :
    (load_image fs directory file_number sort_by
        = .error "No valid image files found in the given directory/directories."
      ↔ imageFiles fs directory = []) ∧
    ((∃ e, load_image fs directory file_number sort_by = .error e)
      ↔ imageFiles fs directory = []) ∧
    ((∃ o, load_image fs directory file_number sort_by = .ok o)
      ↔ imageFiles fs directory ≠ []) := by
  refine ⟨load_image_error_iff fs directory file_number sort_by, ⟨?_, ?_⟩, ⟨?_, ?_⟩⟩
  · rintro ⟨e, he⟩
    by_contra hne
    rw [load_image_ok fs directory file_number sort_by hne] at he
    cases he
  · intro h
    exact ⟨_, (load_image_error_iff fs directory file_number sort_by).mpr h⟩
  · rintro ⟨o, ho⟩ hc
    rw [(load_image_error_iff fs directory file_number sort_by).mpr hc] at ho
    cases ho
  · intro hne
    exact ⟨_, load_image_ok fs directory file_number sort_by hne⟩

/-- C4 (amended): with an alpha channel the returned mask is `1` minus the
alpha bytes normalised to `[0,1]` (so bytes `[0,128,255]` yield
`[1, 127/255, 0]`), of shape `[1, height, width]`; without an alpha
channel it is the all-zero mask of shape `[1, 64, 64]`. -/
theorem C4_mask_inversion (fs : FS) (directory : String) (file_number : Int)
    (sort_by : String) (o : LoadResult)
    (h : load_image fs directory file_number sort_by = .ok o) :
    o.mask = [maskOf (fs.decode o.filepath)] ∧
    ((fs.decode o.filepath).hasAlpha = true →
      o.mask = [(fs.decode o.filepath).alpha.map fun row =>
        row.map fun (a : Nat) => 1 - (a : ℚ) / 255]) ∧
    ((fs.decode o.filepath).hasAlpha = true →
      (fs.decode o.filepath).alpha.length = (fs.decode o.filepath).height →
      (∀ row ∈ (fs.decode o.filepath).alpha,
        row.length = (fs.decode o.filepath).width) →
      o.mask.length = 1 ∧
      (o.mask.getD 0 []).length = (fs.decode o.filepath).height ∧
      ∀ row ∈ o.mask.getD 0 [], row.length = (fs.decode o.filepath).width) ∧
    ((fs.decode o.filepath).hasAlpha = false →
      o.mask = [List.replicate 64 (List.replicate 64 (0 : ℚ))] ∧
      o.mask.length = 1 ∧
      (o.mask.getD 0 []).length = 64 ∧
      ∀ row ∈ o.mask.getD 0 [], row.length = 64) := by
  have hne : imageFiles fs directory ≠ [] := by
    intro hc
    rw [(load_image_error_iff fs directory file_number sort_by).mpr hc] at h
    cases h
  have hrec := load_image_ok fs directory file_number sort_by hne
  rw [h] at hrec
  injection hrec with ho
  subst ho
  refine ⟨rfl, ?_, ?_, ?_⟩
  · intro halpha
    show [maskOf _] = _
    unfold maskOf
    rw [if_pos halpha]
  · intro halpha hh hw
    show ([maskOf _].length = 1) ∧ _
    unfold maskOf
    rw [if_pos halpha]
    refine ⟨rfl, ?_, ?_⟩
    · simp [hh]
    · intro row hrow
      simp only [List.getD_cons_zero, List.mem_map] at hrow
      obtain ⟨r0, hr0, hrr⟩ := hrow
      rw [← hrr]
      simp [hw r0 hr0]
  · intro hnoalpha
    show ([maskOf _] = _) ∧ _
    unfold maskOf
    rw [if_neg (by rw [hnoalpha]; exact Bool.false_ne_true)]
    refine ⟨rfl, rfl, by simp, ?_⟩
    intro row hrow
    simp only [List.getD_cons_zero] at hrow
    rw [List.eq_of_mem_replicate hrow]
    simp

/-- C4 counterexample: normalising the byte range 0–255 by division by 255
sends the alpha byte 128 to 128/255, so the inverted mask value is
127/255, not the claimed 1/2. -/
theorem C4_counterexample :
    maskOf imgAlpha = [[1, 127/255, 0]] ∧
    ((127 : ℚ) / 255 ≠ 1 / 2) ∧
    (okResult (load_image fsA "A" 0 "Filename")).mask = [[[1, 127/255, 0]]] ∧
    (okResult (load_image fsA "A" 0 "Filename")).mask ≠ [[[1, 1/2, 0]]] := by
  have h1 : maskOf imgAlpha = [[1, 127/255, 0]] := by
    unfold maskOf imgAlpha
    norm_num
  have h2 : (127 : ℚ) / 255 ≠ 1 / 2 := by norm_num
  have h3 : (okResult (load_image fsA "A" 0 "Filename")).mask = [[[1, 127/255, 0]]] := by
    rw [load_image_ok fsA "A" 0 "Filename" (by decide)]
    show [maskOf (fsA.decode _)] = _
    rw [show ∀ p, fsA.decode p = imgAlpha from fun _ => rfl, h1]
  refine ⟨h1, h2, h3, ?_⟩
  rw [h3]
  intro hc
  simp only [List.cons.injEq] at hc
  exact h2 hc.1.1.2.1

/-- Witness for C4 at the snapshot `fsA`, whose single image has alpha
bytes 0, 128, 255. -/
theorem C4_witness :
    resA.mask = [maskOf (fsA.decode resA.filepath)] ∧
    ((fsA.decode resA.filepath).hasAlpha = true →
      resA.mask = [(fsA.decode resA.filepath).alpha.map fun row =>
        row.map fun (a : Nat) => 1 - (a : ℚ) / 255]) ∧
    ((fsA.decode resA.filepath).hasAlpha = true →
      (fsA.decode resA.filepath).alpha.length = (fsA.decode resA.filepath).height →
      (∀ row ∈ (fsA.decode resA.filepath).alpha,
        row.length = (fsA.decode resA.filepath).width) →
      resA.mask.length = 1 ∧
      (resA.mask.getD 0 []).length = (fsA.decode resA.filepath).height ∧
      ∀ row ∈ resA.mask.getD 0 [], row.length = (fsA.decode resA.filepath).width) ∧
    ((fsA.decode resA.filepath).hasAlpha = false →
      resA.mask = [List.replicate 64 (List.replicate 64 (0 : ℚ))] ∧
      resA.mask.length = 1 ∧
      (resA.mask.getD 0 []).length = 64 ∧
      ∀ row ∈ resA.mask.getD 0 [], row.length = 64) :=
  C4_mask_inversion fsA "A" 0 "Filename" resA rfl

/-- C5: the directories string is split on semicolons, each entry trimmed,
entries that are not existing directories silently dropped, order
preserved and duplicates kept; the candidate sequence before sorting is
the concatenation, per valid directory in that order, of the directory's
matching entries; for directory `A` holding `a.png` and `B` holding
`b.jpg`, input `"A;B"` yields `A/a.png` then `B/b.jpg`. -/
theorem C5_directory_parsing (fs : FS) (s : String) :
    parseDirs fs s = ((pySplit s ';').map pyStrip).filter fs.isDir ∧
    List.Sublist (parseDirs fs s) ((pySplit s ';').map pyStrip) ∧
    (∀ d, d ∈ parseDirs fs s ↔ d ∈ (pySplit s ';').map pyStrip ∧ fs.isDir d = true) ∧
    (∀ d, (parseDirs fs s).count d
        = if fs.isDir d then ((pySplit s ';').map pyStrip).count d else 0) ∧
    imageFiles fs s = (parseDirs fs s).flatMap (dirMatches fs) ∧
    imageFiles fsAB "A;B" = ["A/a.png", "B/b.jpg"] := by
  refine ⟨rfl, List.filter_sublist _, ?_, ?_, imageFiles_eq_flatMap fs s, by decide⟩
  · intro d; exact List.mem_filter
  · intro d; exact count_filter_eq fs.isDir _ d

/-- C6: every sort mode is stable: the subsequence of candidates whose
mode key takes any fixed value is unchanged by the sort, so ties keep
their discovery order; in particular two files of identical size under
`FileSize` keep their listing order. -/
theorem C6_sort_stability (fs : FS) (files : List String) :
    (∀ k, (sort_files fs files "Filename").filter
        (fun f => decide (natural_sort_key f = k))
      = files.filter (fun f => decide (natural_sort_key f = k))) ∧
    (∀ t, (sort_files fs files "Date (Newest First)").filter
        (fun f => decide (fs.getmtime f = t))
      = files.filter (fun f => decide (fs.getmtime f = t))) ∧
    (∀ t, (sort_files fs files "Date (Oldest First)").filter
        (fun f => decide (fs.getmtime f = t))
      = files.filter (fun f => decide (fs.getmtime f = t))) ∧
    (∀ n, (sort_files fs files "FileSize").filter
        (fun f => decide (fs.getsize f = n))
      = files.filter (fun f => decide (fs.getsize f = n))) ∧
    sort_files fsW1 ["b.png", "a.png"] "FileSize" = ["b.png", "a.png"] := by
  have hfn : sort_files fs files "Filename" = files.insertionSort natLe := by
    unfold sort_files; rw [if_pos rfl]
  have hnew : sort_files fs files "Date (Newest First)"
      = files.insertionSort (mtimeGe fs) := by
    unfold sort_files; rw [if_neg (by decide), if_pos rfl]
  have hold : sort_files fs files "Date (Oldest First)"
      = files.insertionSort (mtimeLe fs) := by
    unfold sort_files; rw [if_neg (by decide), if_neg (by decide), if_pos rfl]
  have hsz : sort_files fs files "FileSize"
      = files.insertionSort (sizeLe fs) := by
    unfold sort_files
    rw [if_neg (by decide), if_neg (by decide), if_neg (by decide), if_pos rfl]
  refine ⟨?_, ?_, ?_, ?_, by decide⟩
  · intro k
    rw [hfn]
    apply filter_insertionSort_eq
    apply List.pairwise_of_forall_mem_list
    intro x hx y hy
    have hxk := of_decide_eq_true (List.mem_filter.mp hx).2
    have hyk := of_decide_eq_true (List.mem_filter.mp hy).2
    exact natLe_of_key_eq (hxk.trans hyk.symm)
  · intro t
    rw [hnew]
    apply filter_insertionSort_eq
    apply List.pairwise_of_forall_mem_list
    intro x hx y hy
    have hxk := of_decide_eq_true (List.mem_filter.mp hx).2
    have hyk := of_decide_eq_true (List.mem_filter.mp hy).2
    unfold mtimeGe
    rw [hxk, hyk]
  · intro t
    rw [hold]
    apply filter_insertionSort_eq
    apply List.pairwise_of_forall_mem_list
    intro x hx y hy
    have hxk := of_decide_eq_true (List.mem_filter.mp hx).2
    have hyk := of_decide_eq_true (List.mem_filter.mp hy).2
    unfold mtimeLe
    rw [hxk, hyk]
  · intro n
    rw [hsz]
    apply filter_insertionSort_eq
    apply List.pairwise_of_forall_mem_list
    intro x hx y hy
    have hxk := of_decide_eq_true (List.mem_filter.mp hx).2
    have hyk := of_decide_eq_true (List.mem_filter.mp hy).2
    unfold sizeLe
    rw [hxk, hyk]

/-- C7 counterexample: two snapshots identical except for the enumeration
order of one directory (holding `a01.png` and `a1.png`, whose natural keys
tie) produce different outputs, because the stable sort preserves the
differing discovery orders of tied candidates. -/
theorem C7_counterexample :
    fsT1.isDir = fsT2.isDir ∧
    fsT1.kind = fsT2.kind ∧
    fsT1.getmtime = fsT2.getmtime ∧
    fsT1.getsize = fsT2.getsize ∧
    fsT1.decode = fsT2.decode ∧
    List.Perm (fsT1.listdir "A") (fsT2.listdir "A") ∧
    (okResult (load_image fsT1 "A" 0 "Filename")).filepath = "A/a01.png" ∧
    (okResult (load_image fsT2 "A" 0 "Filename")).filepath = "A/a1.png" ∧
    load_image fsT1 "A" 0 "Filename" ≠ load_image fsT2 "A" 0 "Filename" := by
  have h1 : (okResult (load_image fsT1 "A" 0 "Filename")).filepath = "A/a01.png" := by
    decide
  have h2 : (okResult (load_image fsT2 "A" 0 "Filename")).filepath = "A/a1.png" := by
    decide
  refine ⟨rfl, rfl, rfl, rfl, rfl, by decide, h1, h2, ?_⟩
  intro hc
  have h3 := congrArg (fun x => (okResult x).filepath) hc
  simp only [] at h3
  rw [h1, h2] at h3
  exact absurd h3 (by decide)

/-- C7 (amended): for a fixed snapshot and mode, the output is independent
of the per-directory enumeration order provided no two distinct
candidates tie under the mode's sort key; when ties exist, the stable
sort preserves the enumeration order of the tied candidates and the
output can depend on it (see the counterexample). -/
theorem C7_deterministic_when_no_ties (fs1 fs2 : FS) (directory : String)
    (file_number : Int) (mode : String)
    (hdir : fs1.isDir = fs2.isDir)
    (hmt : fs1.getmtime = fs2.getmtime)
    (hsz : fs1.getsize = fs2.getsize)
    (hdec : fs1.decode = fs2.decode)
    (hls : ∀ d, List.Perm (fs1.listdir d) (fs2.listdir d))
    (hmode : mode = "Filename" ∨ mode = "Date (Newest First)"
      ∨ mode = "Date (Oldest First)" ∨ mode = "FileSize")
    (hnotie : ∀ x ∈ imageFiles fs1 directory, ∀ y ∈ imageFiles fs1 directory,
      sortKeysTie fs1 mode x y → x = y) :
    load_image fs1 directory file_number mode
      = load_image fs2 directory file_number mode := by
  have hpd : parseDirs fs1 directory = parseDirs fs2 directory := by
    unfold parseDirs; rw [hdir]
  have himg : List.Perm (imageFiles fs1 directory) (imageFiles fs2 directory) := by
    rw [imageFiles_eq_flatMap, imageFiles_eq_flatMap, ← hpd]
    apply flatMap_perm_of_perm
    intro d _
    unfold dirMatches
    exact ((hls d).filter hasValidExt).map (pathJoin d)
  have hsorted : sort_files fs1 (imageFiles fs1 directory) mode
      = sort_files fs2 (imageFiles fs2 directory) mode := by
    rcases hmode with hm | hm | hm | hm <;> subst hm
    · have e1 : sort_files fs1 (imageFiles fs1 directory) "Filename"
          = (imageFiles fs1 directory).insertionSort natLe := by
        unfold sort_files; rw [if_pos rfl]
      have e2 : sort_files fs2 (imageFiles fs2 directory) "Filename"
          = (imageFiles fs2 directory).insertionSort natLe := by
        unfold sort_files; rw [if_pos rfl]
      rw [e1, e2]
      apply eq_of_perm_of_sorted_of_anti
        ((List.perm_insertionSort natLe _).trans
          (himg.trans (List.perm_insertionSort natLe _).symm))
        (List.sorted_insertionSort natLe _)
        (List.sorted_insertionSort natLe _)
      intro x hx y hy hxy hyx
      have hx' := (List.mem_insertionSort natLe).mp hx
      have hy' := (List.mem_insertionSort natLe).mp hy
      apply hnotie x hx' y hy'
      unfold sortKeysTie
      rw [if_pos rfl]
      exact key_eq_of_natLe_natLe hxy hyx
    · have e1 : sort_files fs1 (imageFiles fs1 directory) "Date (Newest First)"
          = (imageFiles fs1 directory).insertionSort (mtimeGe fs1) := by
        unfold sort_files; rw [if_neg (by decide), if_pos rfl]
      have e2 : sort_files fs2 (imageFiles fs2 directory) "Date (Newest First)"
          = (imageFiles fs2 directory).insertionSort (mtimeGe fs2) := by
        unfold sort_files; rw [if_neg (by decide), if_pos rfl]
      have hrel : mtimeGe fs1 = mtimeGe fs2 := by unfold mtimeGe; rw [hmt]
      rw [e1, e2]
      apply eq_of_perm_of_sorted_of_anti
        ((List.perm_insertionSort (mtimeGe fs1) _).trans
          (himg.trans (List.perm_insertionSort (mtimeGe fs2) _).symm))
        (List.sorted_insertionSort (mtimeGe fs1) _)
        (by rw [hrel]; exact List.sorted_insertionSort (mtimeGe fs2) _)
      intro x hx y hy hxy hyx
      have hx' := (List.mem_insertionSort (mtimeGe fs1)).mp hx
      have hy' := (List.mem_insertionSort (mtimeGe fs1)).mp hy
      apply hnotie x hx' y hy'
      unfold sortKeysTie
      rw [if_neg (by decide), if_pos rfl]
      exact le_antisymm hyx hxy
    · have e1 : sort_files fs1 (imageFiles fs1 directory) "Date (Oldest First)"
          = (imageFiles fs1 directory).insertionSort (mtimeLe fs1) := by
        unfold sort_files; rw [if_neg (by decide), if_neg (by decide), if_pos rfl]
      have e2 : sort_files fs2 (imageFiles fs2 directory) "Date (Oldest First)"
          = (imageFiles fs2 directory).insertionSort (mtimeLe fs2) := by
        unfold sort_files; rw [if_neg (by decide), if_neg (by decide), if_pos rfl]
      have hrel : mtimeLe fs1 = mtimeLe fs2 := by unfold mtimeLe; rw [hmt]
      rw [e1, e2]
      apply eq_of_perm_of_sorted_of_anti
        ((List.perm_insertionSort (mtimeLe fs1) _).trans
          (himg.trans (List.perm_insertionSort (mtimeLe fs2) _).symm))
        (List.sorted_insertionSort (mtimeLe fs1) _)
        (by rw [hrel]; exact List.sorted_insertionSort (mtimeLe fs2) _)
      intro x hx y hy hxy hyx
      have hx' := (List.mem_insertionSort (mtimeLe fs1)).mp hx
      have hy' := (List.mem_insertionSort (mtimeLe fs1)).mp hy
      apply hnotie x hx' y hy'
      unfold sortKeysTie
      rw [if_neg (by decide), if_neg (by decide), if_pos rfl]
      exact le_antisymm hxy hyx
    · have e1 : sort_files fs1 (imageFiles fs1 directory) "FileSize"
          = (imageFiles fs1 directory).insertionSort (sizeLe fs1) := by
        unfold sort_files
        rw [if_neg (by decide), if_neg (by decide), if_neg (by decide), if_pos rfl]
      have e2 : sort_files fs2 (imageFiles fs2 directory) "FileSize"
          = (imageFiles fs2 directory).insertionSort (sizeLe fs2) := by
        unfold sort_files
        rw [if_neg (by decide), if_neg (by decide), if_neg (by decide), if_pos rfl]
      have hrel : sizeLe fs1 = sizeLe fs2 := by unfold sizeLe; rw [hsz]
      rw [e1, e2]
      apply eq_of_perm_of_sorted_of_anti
        ((List.perm_insertionSort (sizeLe fs1) _).trans
          (himg.trans (List.perm_insertionSort (sizeLe fs2) _).symm))
        (List.sorted_insertionSort (sizeLe fs1) _)
        (by rw [hrel]; exact List.sorted_insertionSort (sizeLe fs2) _)
      intro x hx y hy hxy hyx
      have hx' := (List.mem_insertionSort (sizeLe fs1)).mp hx
      have hy' := (List.mem_insertionSort (sizeLe fs1)).mp hy
      apply hnotie x hx' y hy'
      unfold sortKeysTie
      rw [if_neg (by decide), if_neg (by decide), if_neg (by decide), if_pos rfl]
      exact le_antisymm hxy hyx
  unfold load_image
  rw [hsorted, hdec]

/-- Witness for C7 at two snapshots that enumerate `A` in opposite orders;
the two candidates have distinct natural keys, so the outputs agree. -/
theorem C7_witness :
    load_image fsW1 "A" 0 "Filename" = load_image fsW2 "A" 0 "Filename" := by
  apply C7_deterministic_when_no_ties fsW1 fsW2 "A" 0 "Filename" rfl rfl rfl rfl
  · intro d
    by_cases h : (d == "A") = true
    · show List.Perm (if d == "A" then ["b.png", "a.png"] else [])
        (if d == "A" then ["a.png", "b.png"] else [])
      rw [if_pos h, if_pos h]
      exact List.Perm.swap "a.png" "b.png" []
    · show List.Perm (if d == "A" then ["b.png", "a.png"] else [])
        (if d == "A" then ["a.png", "b.png"] else [])
      rw [if_neg h, if_neg h]
  · exact Or.inl rfl
  · have hif : imageFiles fsW1 "A" = ["A/b.png", "A/a.png"] := by decide
    intro x hx y hy ht
    unfold sortKeysTie at ht
    rw [if_pos rfl] at ht
    rw [hif] at hx hy
    fin_cases hx <;> fin_cases hy <;> first
      | rfl
      | (exfalso; revert ht; decide)

/-- C8 counterexample: the collection loop filters listed entries by name
only and never consults the entry's kind, so a subdirectory named
`sub.png` becomes a candidate. -/
theorem C8_counterexample :
    imageFiles fsKind "A" = ["A/sub.png"] ∧
    fsKind.kind "A/sub.png" = EntryKind.directory :=
  ⟨by decide, by decide⟩

/-- C8 (amended): the candidates are exactly the joined paths of listed
entries of valid directories whose lowercased name ends in a supported
suffix; the extension filter also holds of every candidate path, but the
entry's filesystem kind is never checked, so non-file entries with
matching names are included. -/
theorem C8_candidate_membership (fs : FS) (directory f : String) :
    (f ∈ imageFiles fs directory ↔
      ∃ d, d ∈ parseDirs fs directory ∧ ∃ name, name ∈ fs.listdir d ∧
        hasValidExt name = true ∧ f = pathJoin d name) ∧
    (∀ g ∈ imageFiles fs directory, hasValidExt g = true) := by
  have hmem : ∀ g, g ∈ imageFiles fs directory ↔
      ∃ d, d ∈ parseDirs fs directory ∧ ∃ name, name ∈ fs.listdir d ∧
        hasValidExt name = true ∧ g = pathJoin d name := by
    intro g
    rw [imageFiles_eq_flatMap]
    simp only [List.mem_flatMap]
    constructor
    · rintro ⟨d, hd, hg⟩
      unfold dirMatches at hg
      rw [List.mem_map] at hg
      obtain ⟨name, hn, heq⟩ := hg
      rw [List.mem_filter] at hn
      exact ⟨d, hd, name, hn.1, hn.2, heq.symm⟩
    · rintro ⟨d, hd, name, hn, hv, heq⟩
      refine ⟨d, hd, ?_⟩
      unfold dirMatches
      rw [List.mem_map]
      exact ⟨name, List.mem_filter.mpr ⟨hn, hv⟩, heq.symm⟩
  refine ⟨hmem f, ?_⟩
  intro g hg
  obtain ⟨d, _, name, _, hv, heq⟩ := (hmem g).mp hg
  rw [heq]
  exact hasValidExt_pathJoin d name hv

/-- C9 counterexample: two distinct filenames whose natural keys are
equal tie in both directions, so the `Filename` comparator is not
antisymmetric on filenames and therefore not a total order on them. -/
theorem C9_counterexample :
    natLe "file01.jpg" "file1.jpg" ∧ natLe "file1.jpg" "file01.jpg" ∧
    "file01.jpg" ≠ "file1.jpg" ∧
    natural_sort_key "file01.jpg" = natural_sort_key "file1.jpg" := by decide

/-- C9 (amended): the natural-key comparison is well-defined and total:
keys always alternate text parts at even positions with numeric parts at
odd positions, the faithful comparator (`none` marking Python's
`TypeError` on `int` vs `str`) is always defined and agrees with the
comparator driving the sort, and the induced relation on filenames is a
total preorder (reflexive, total, transitive) that is antisymmetric up
to key equality — a total order on keys, not on filenames. -/
theorem C9_comparator_welldefined (s t u : String) :
    cmpKeyOpt (natural_sort_key s) (natural_sort_key t) = some (cmpKeys s t) ∧
    altKey true (natural_sort_key s) = true ∧
    natLe s s ∧
    (natLe s t ∨ natLe t s) ∧
    (natLe s t → natLe t u → natLe s u) ∧
    (natLe s t → natLe t s → natural_sort_key s = natural_sort_key t) :=
  ⟨cmpKeyOpt_eq_some true _ _ (altKey_natural_sort_key s) (altKey_natural_sort_key t),
    altKey_natural_sort_key s,
    natLe_of_key_eq rfl,
    natLe_total s t,
    fun h1 h2 => natLe_trans h1 h2,
    fun h1 h2 => key_eq_of_natLe_natLe h1 h2⟩

/-- Witness for C9 at three concrete filenames. -/
theorem C9_witness :
    cmpKeyOpt (natural_sort_key "file2.jpg") (natural_sort_key "file10.jpg")
      = some (cmpKeys "file2.jpg" "file10.jpg") ∧
    altKey true (natural_sort_key "file2.jpg") = true ∧
    natLe "file2.jpg" "file2.jpg" ∧
    (natLe "file2.jpg" "file10.jpg" ∨ natLe "file10.jpg" "file2.jpg") ∧
    (natLe "file2.jpg" "file10.jpg" → natLe "file10.jpg" "File3.PNG" →
      natLe "file2.jpg" "File3.PNG") ∧
    (natLe "file2.jpg" "file10.jpg" → natLe "file10.jpg" "file2.jpg" →
      natural_sort_key "file2.jpg" = natural_sort_key "file10.jpg") :=
  C9_comparator_welldefined "file2.jpg" "file10.jpg" "File3.PNG"

/-- C10: on success, the returned file count is positive and equals the
length of the sorted candidate sequence, the filepath is one of the
sorted candidates, the filename is its last path component, and the
filename without extension is the filename with its `splitext` extension
removed (the extension concatenates back onto it). -/
theorem C10_metadata (fs : FS) (directory : String) (file_number : Int)
    (sort_by : String) (o : LoadResult)
    (h : load_image fs directory file_number sort_by = .ok o) :
    1 ≤ o.file_count ∧
    o.file_count = (sortedFiles fs directory sort_by).length ∧
    o.filepath ∈ sortedFiles fs directory sort_by ∧
    o.filename = basename o.filepath ∧
    o.filename_no_ext = (splitext o.filename).1 ∧
    o.filename_no_ext ++ (splitext o.filename).2 = o.filename := by
  have hne : imageFiles fs directory ≠ [] := by
    intro hc
    rw [(load_image_error_iff fs directory file_number sort_by).mpr hc] at h
    cases h
  have hrec := load_image_ok fs directory file_number sort_by hne
  rw [h] at hrec
  injection hrec with ho
  subst ho
  have hsne : sortedFiles fs directory sort_by ≠ [] := by
    unfold sortedFiles
    intro hc
    apply hne
    have hlen := congrArg List.length hc
    rw [sort_files_length] at hlen
    exact List.length_eq_zero.mp hlen
  refine ⟨?_, rfl, ?_, rfl, rfl, ?_⟩
  · show 1 ≤ (sortedFiles fs directory sort_by).length
    exact List.length_pos.mpr hsne
  · show selectedPath fs directory file_number sort_by ∈ _
    exact selectedPath_mem fs directory file_number sort_by hsne
  · exact splitext_append _

/-- Witness for C10 at the one-image snapshot `fsA`. -/
theorem C10_witness :
    1 ≤ resA.file_count ∧
    resA.file_count = (sortedFiles fsA "A" "Filename").length ∧
    resA.filepath ∈ sortedFiles fsA "A" "Filename" ∧
    resA.filename = basename resA.filepath ∧
    resA.filename_no_ext = (splitext resA.filename).1 ∧
    resA.filename_no_ext ++ (splitext resA.filename).2 = resA.filename :=
  C10_metadata fsA "A" 0 "Filename" resA rfl

end BM
